import Mathlib

/-!
# go-logging: request capture, lazy record fields and the reopen loop

A shallow embedding of `request.go`, `fields.go` and `signals.go`.

Pointer arguments (`*Logger`, `*record`, `*request`) become explicit state
passing: a function that mutates its receiver returns the updated value.
Everything the code obtains from outside the package (the wall clock, the stack
walk, the process id, the executable path, the level-name table, the time
formatter) is read from an explicit environment `Env`; the number of clock
reads and of stack walks is threaded through as a counter so that
"how often" questions can be stated.

Go strings are modelled by Lean strings.  The only byte-level operation in the
code is the search for the ASCII byte `.`, which never occurs inside a
multi-byte UTF-8 sequence, so searching by character is the same search.
-/

namespace Logging

/-! ## Machine integers -/

/-- Modulus of a 64-bit machine word. -/
def two64 : Nat := 18446744073709551616

/-- The result of `atomic.AddUint64(&x, delta)`: addition modulo 2^64. -/
def addUint64 (x delta : Nat) : Nat := (x + delta) % two64

/-- Smallest `int64`. -/
def minInt64 : Int := -9223372036854775808

/-- Largest `int64`. -/
def maxInt64 : Int := 9223372036854775807

/-- Two-complement wrap of a mathematical integer into `int64`. -/
def wrapInt64 (x : Int) : Int := (x - minInt64) % (two64 : Int) + minInt64

/-! ## The standard library's `time.Time` -/

/-- An instant as `time.Time` holds it: the wall-clock reading `ns`, as
nanoseconds elapsed since January 1, year 1, 00:00:00 UTC (the instant of Go's
zero `time.Time`), and the monotonic-clock reading `mono` in nanoseconds that
`time.Now()` attaches to the values it returns (`none` on a value without one,
such as the zero value). -/
structure Time where
  ns : Int
  mono : Option Int
deriving DecidableEq, Repr

namespace Time

/-- Seconds between year 1 and the Unix epoch (`unixToInternal`). -/
def unixToInternal : Int := 62135596800

/-- The zero value `time.Time{}`. -/
def zero : Time := ⟨0, none⟩

/-- Go `Time.IsZero`: the wall-clock instant is January 1, year 1, 00:00:00 UTC. -/
def IsZero (t : Time) : Bool := t.ns == 0

/-- Go `Time.UnixNano`: wall-clock nanoseconds since the Unix epoch, computed in
`int64`. -/
def UnixNano (t : Time) : Int := wrapInt64 (t.ns - unixToInternal * 1000000000)

/-- Go `Time.Nanosecond`: the nanosecond offset within the wall-clock second. -/
def Nanosecond (t : Time) : Int := t.ns % 1000000000

/-- A difference as a `Duration`: kept when it fits an `int64`, otherwise the
smallest or the largest duration. -/
def saturate (d : Int) : Int :=
  if d < minInt64 then minInt64 else if maxInt64 < d then maxInt64 else d

/-- Go `t.Sub(u).Nanoseconds()`.  When both instants carry a monotonic reading
the result is the difference of the monotonic readings; otherwise it is the
difference of the wall-clock readings.  Either difference is saturated. -/
def SubNanoseconds (t u : Time) : Int :=
  match t.mono, u.mono with
  | some a, some b => saturate (a - b)
  | _, _ => saturate (t.ns - u.ns)

end Time

/-! ## Data model -/

/-- The value of a resolved field (`interface{}`), tagged with its Go type. -/
inductive Value where
  | str (s : String)
  | int (n : Int)
  | int32 (n : Int)
  | int64 (n : Int)
  | uint64 (n : Nat)
deriving DecidableEq, Repr

/-- Modelled from the spec: the `Level` type is declared outside the retained
sources; a level is its number. -/
abbrev Level := Int

/-- Modelled from the spec: the `Logger` type is declared outside the retained
sources; these are the fields the retained code reads or updates (display
name, shared sequence counter, start time, time format, ordered field list). -/
structure Logger where
  name : String
  seqid : Nat
  startTime : Time
  timeFormat : String
  recordArgs : List String
deriving DecidableEq, Repr

/-- The `request` struct of `request.go`. -/
structure request where
  level : Level
  format : String
  pathname : String
  filename : String
  lineno : Int
  funcname : String
  v : List Value
deriving DecidableEq, Repr

/-- The `record` struct of `fields.go`. -/
structure record where
  level : Level
  seqid : Nat
  pathname : String
  filename : String
  module : String
  lineno : Int
  funcname : String
  process : Int
  message : String
  time : Time
deriving DecidableEq, Repr

/-- The frame reported by a successful `runtime.Caller(5)`, together with the
name `runtime.FuncForPC(pc).Name()` of its function. -/
structure Frame where
  file : String
  line : Int
  fname : String
deriving DecidableEq, Repr

/-- Everything the package reads from outside itself. -/
structure Env where
  /-- The clock `time.Now()`: the instant returned by the i-th read of the clock. -/
  now : Nat → Time
  /-- The formatter `Time.Format`: render an instant with a layout. -/
  format : Time → String → String
  /-- The walk `runtime.Caller(calldepth)` with `calldepth = 5`, which lands on
  the logging call site; `none` when it reports not ok. -/
  caller : Option Frame
  /-- The process id `os.Getpid()`. -/
  getpid : Int
  /-- The executable path `osext.Executable()`. -/
  executable : String
  /-- The external `levelNames` table. -/
  levelNames : Level → String

/-! ## Standard library helper -/

/-- The standard library's `path.Base`: the last element of a slash-separated
path, after removing trailing slashes; `.` for the empty path and `/` for a
path of slashes only. -/
def pathBase (p : String) : String :=
  if p.data = [] then "."
  else
    let stripped := (p.data.reverse.dropWhile (fun c => c == '/')).reverse
    let last := (stripped.reverse.takeWhile (fun c => c != '/')).reverse
    if last = [] then "/" else String.mk last

/-! ## fields.go -/

/-- The constructor `NewRecord`: copy level and stack fields from the request, keep the
message, leave every lazy field at its zero value. -/
def NewRecord (req : request) (message : String) : record :=
  { level := req.level
    seqid := 0
    pathname := req.pathname
    filename := req.filename
    module := ""
    lineno := req.lineno
    funcname := req.funcname
    process := 0
    message := message
    time := Time.zero }

/-- The method `(*Logger).nextSeqid`: assign the next sequence number to the record when
its `seqid` is still 0, then return the record's `seqid`. -/
def Logger.nextSeqid (logger : Logger) (r : record) : Value × Logger × record :=
  if r.seqid = 0 then
    let n := addUint64 logger.seqid 1
    (Value.uint64 n, { logger with seqid := n }, { r with seqid := n })
  else
    (Value.uint64 r.seqid, logger, r)

/-- Call `nextSeqid` on the same record `n` times in a row; every call is
logged as the value it returned and the logger's counter right after it. -/
def seqidCalls : Nat → Logger → record → List (Value × Nat)
  | 0, _, _ => []
  | n + 1, logger, r =>
    let res := logger.nextSeqid r
    (res.1, res.2.1.seqid) :: seqidCalls n res.2.1 res.2.2

/-- A sequential run: for each (request, message) in turn build a fresh record
and resolve its `seqid` once; returns the resolved numbers in order and the
final logger. -/
def seqidRun : Logger → List (request × String) → List Nat × Logger
  | logger, [] => ([], logger)
  | logger, (req, msg) :: rest =>
    let res := logger.nextSeqid (NewRecord req msg)
    let tl := seqidRun res.2.1 rest
    (res.2.2.seqid :: tl.1, tl.2)

/-- The three resolvers that read the record's lazy time cache. -/
inductive TimeField where
  | time
  | timestamp
  | rtime
deriving DecidableEq, Repr

/-- The method `(*Logger).time`: fill the record's time from the clock when it
is still the zero time, then render it with the logger's format.  The last
component counts the reads of the clock made so far. -/
def Logger.time (env : Env) (logger : Logger) (r : record) (reads : Nat) :
    Value × record × Nat :=
  let r1 := if r.time.IsZero then { r with time := env.now reads } else r
  let reads1 := if r.time.IsZero then reads + 1 else reads
  (Value.str (env.format r1.time logger.timeFormat), r1, reads1)

/-- The method `(*Logger).timestamp`: fill the record's time from the clock when
it is still the zero time, then return it as Unix nanoseconds. -/
def Logger.timestamp (env : Env) (_logger : Logger) (r : record) (reads : Nat) :
    Value × record × Nat :=
  let r1 := if r.time.IsZero then { r with time := env.now reads } else r
  let reads1 := if r.time.IsZero then reads + 1 else reads
  (Value.int64 r1.time.UnixNano, r1, reads1)

/-- The method `(*Logger).rtime`: fill the record's time from the clock when it
is still the zero time, then return the nanoseconds between the logger's start
and it. -/
def Logger.rtime (env : Env) (logger : Logger) (r : record) (reads : Nat) :
    Value × record × Nat :=
  let r1 := if r.time.IsZero then { r with time := env.now reads } else r
  let reads1 := if r.time.IsZero then reads + 1 else reads
  (Value.int64 (r1.time.SubNanoseconds logger.startTime), r1, reads1)

/-- The method `(*Logger).created`: the logger's start time as Unix nanoseconds. -/
def Logger.created (logger : Logger) (_r : record) : Value :=
  Value.int64 logger.startTime.UnixNano

/-- The method `(*Logger).nsecs`: nanosecond part of the logger's start time. -/
def Logger.nsecs (logger : Logger) (_r : record) : Value :=
  Value.int logger.startTime.Nanosecond

/-- The method `(*Logger).lname`: the logger's name. -/
def Logger.lname (logger : Logger) (_r : record) : Value := Value.str logger.name

/-- The method `(*Logger).levelno`: the level as `int32`. -/
def Logger.levelno (_logger : Logger) (r : record) : Value := Value.int32 r.level

/-- The method `(*Logger).levelname`: the level's name from the external table. -/
def Logger.levelname (env : Env) (_logger : Logger) (r : record) : Value :=
  Value.str (env.levelNames r.level)

/-- The method `(*Logger).pathname`. -/
def Logger.pathname (_logger : Logger) (r : record) : Value := Value.str r.pathname

/-- The method `(*Logger).filename`. -/
def Logger.filename (_logger : Logger) (r : record) : Value := Value.str r.filename

/-- The method `(*Logger).lineno`. -/
def Logger.lineno (_logger : Logger) (r : record) : Value := Value.int r.lineno

/-- The method `(*Logger).funcname`. -/
def Logger.funcname (_logger : Logger) (r : record) : Value := Value.str r.funcname

/-- The method `(*Logger).message`. -/
def Logger.message (_logger : Logger) (r : record) : Value := Value.str r.message

/-- The method `(*Logger).process`: the process id, read once per record. -/
def Logger.process (env : Env) (_logger : Logger) (r : record) : Value × record :=
  if r.process = 0 then (Value.int env.getpid, { r with process := env.getpid })
  else (Value.int r.process, r)

/-- The method `(*Logger).module`: base name of the running executable. -/
def Logger.module (env : Env) (_logger : Logger) (_r : record) : Value :=
  Value.str (pathBase env.executable)

/-- Call one of the three time resolvers. -/
def TimeField.call (env : Env) (logger : Logger) :
    TimeField → record → Nat → Value × record × Nat
  | .time => logger.time env
  | .timestamp => logger.timestamp env
  | .rtime => logger.rtime env

/-- Run a sequence of time-resolver calls on one record; every call is logged
as the value it returned and the number of clock reads made up to and
including it. -/
def timeCalls (env : Env) (logger : Logger) :
    List TimeField → record → Nat → List (Value × Nat)
  | [], _, _ => []
  | f :: fs, r, reads =>
    let res := f.call env logger r reads
    (res.1, res.2.2) :: timeCalls env logger fs res.2.1 res.2.2

/-- What a time resolver shows of an instant `t`. -/
def TimeField.render (env : Env) (logger : Logger) (t : Time) : TimeField → Value
  | .time => Value.str (env.format t logger.timeFormat)
  | .timestamp => Value.int64 t.UnixNano
  | .rtime => Value.int64 (t.SubNanoseconds logger.startTime)

/-! ## request.go -/

/-- The constant `errString`. -/
def errString : String := "???"

/-- The loop of `genRuntime` that shortens the function name, entered with
`i = len(fname) - 1` and run while `i > 0`: at the first index (from the right)
holding `.` the result is `fname[i+1:]`; when the loop runs out the name is
kept whole. -/
def shortLoop (fname : List Char) : Nat → List Char
  | 0 => fname
  | i + 1 => if fname[i + 1]? = some '.' then fname.drop (i + 2) else shortLoop fname i

/-- The short function name computed by `genRuntime`. -/
def shortName (fname : String) : String :=
  String.mk (shortLoop fname.data (fname.data.length - 1))

/-- The function `genRuntime`: one stack walk filling all four stack fields, with the
sentinels `errString` and -1 when the walk fails.  The second component counts
the stack walks made so far. -/
def genRuntime (env : Env) (r : request) (walks : Nat) : request × Nat :=
  match env.caller with
  | some f =>
    ({ r with pathname := f.file, funcname := shortName f.fname,
              filename := pathBase f.file, lineno := f.line }, walks + 1)
  | none =>
    ({ r with pathname := errString, funcname := errString,
              filename := errString, lineno := -1 }, walks + 1)

/-- The method `(*request).setPathname`. -/
def request.setPathname (env : Env) (r : request) (walks : Nat) : request × Nat :=
  if r.pathname = "" then genRuntime env r walks else (r, walks)

/-- The method `(*request).setFilename`. -/
def request.setFilename (env : Env) (r : request) (walks : Nat) : request × Nat :=
  if r.filename = "" then genRuntime env r walks else (r, walks)

/-- The method `(*request).setLineno`. -/
def request.setLineno (env : Env) (r : request) (walks : Nat) : request × Nat :=
  if r.lineno = 0 then genRuntime env r walks else (r, walks)

/-- The method `(*request).setFuncname`. -/
def request.setFuncname (env : Env) (r : request) (walks : Nat) : request × Nat :=
  if r.funcname = "" then genRuntime env r walks else (r, walks)

/-- The method values stored in `setRequestFields`. -/
inductive Setter where
  | setFilename
  | setPathname
  | setLineno
  | setFuncname
deriving DecidableEq, Repr

/-- Call a stored setter. -/
def Setter.call (env : Env) : Setter → request → Nat → request × Nat
  | .setFilename => request.setFilename env
  | .setPathname => request.setPathname env
  | .setLineno => request.setLineno env
  | .setFuncname => request.setFuncname env

/-- The map `setRequestFields`, as its list of entries. -/
def setRequestFields : List (String × Setter) :=
  [ ("filename", Setter.setFilename),
    ("pathname", Setter.setPathname),
    ("lineno", Setter.setLineno),
    ("funcname", Setter.setFuncname) ]

/-- The map `runtimeFields`, as its list of entries. -/
def runtimeFields : List (String × Bool) :=
  [ ("name", false),
    ("seqid", false),
    ("levelno", false),
    ("levelname", false),
    ("created", false),
    ("nsecs", false),
    ("time", false),
    ("timestamp", false),
    ("rtime", false),
    ("filename", true),
    ("pathname", true),
    ("module", false),
    ("lineno", true),
    ("funcname", true),
    ("process", false),
    ("message", false) ]

/-- The index expression `runtimeFields[v]`: a key that is absent yields the
zero value `false`. -/
def runtimeFieldsAt (v : String) : Bool := (runtimeFields.lookup v).getD false

/-- The index expression `setRequestFields[v]`: a key that is absent yields a
nil function, here `none`. -/
def setRequestFieldsAt (v : String) : Option Setter := setRequestFields.lookup v

/-- The loop of `NewRequest` over `logger.recordArgs`.  Calling a nil function
panics: the result is `none`. -/
def evalRuntimeArgs (env : Env) : List String → request → Nat → Option (request × Nat)
  | [], r, walks => some (r, walks)
  | v :: rest, r, walks =>
    if runtimeFieldsAt v then
      match setRequestFieldsAt v with
      | some f => evalRuntimeArgs env rest (f.call env r walks).1 (f.call env r walks).2
      | none => none
    else evalRuntimeArgs env rest r walks

/-- The constructor `NewRequest`: store level, format and arguments, then evaluate every
configured stack-derived field.  Returns the request and the number of stack
walks made so far, or `none` when the call panics. -/
def NewRequest (env : Env) (logger : Logger) (level : Level) (format : String)
    (v : List Value) (walks : Nat) : Option (request × Nat) :=
  evalRuntimeArgs env logger.recordArgs
    { level := level, format := format, pathname := "", filename := "",
      lineno := 0, funcname := "", v := v } walks

/-! ## The resolver table of fields.go -/

/-- The method values stored in `fields`. -/
inductive Resolver where
  | lname
  | nextSeqid
  | levelno
  | levelname
  | created
  | nsecs
  | time
  | timestamp
  | rtime
  | filename
  | pathname
  | module
  | lineno
  | funcname
  | process
  | message
deriving DecidableEq, Repr

/-- The map `fields`, as its list of entries. -/
def fields : List (String × Resolver) :=
  [ ("name", Resolver.lname),
    ("seqid", Resolver.nextSeqid),
    ("levelno", Resolver.levelno),
    ("levelname", Resolver.levelname),
    ("created", Resolver.created),
    ("nsecs", Resolver.nsecs),
    ("time", Resolver.time),
    ("timestamp", Resolver.timestamp),
    ("rtime", Resolver.rtime),
    ("filename", Resolver.filename),
    ("pathname", Resolver.pathname),
    ("module", Resolver.module),
    ("lineno", Resolver.lineno),
    ("funcname", Resolver.funcname),
    ("process", Resolver.process),
    ("message", Resolver.message) ]

/-- Call a stored resolver on a logger and a record; returns the value, the
updated logger and record, and the number of clock reads made so far. -/
def Resolver.call (env : Env) (logger : Logger) (r : record) (reads : Nat) :
    Resolver → Value × Logger × record × Nat
  | .lname => (logger.lname r, logger, r, reads)
  | .nextSeqid => ((logger.nextSeqid r).1, (logger.nextSeqid r).2.1, (logger.nextSeqid r).2.2, reads)
  | .levelno => (logger.levelno r, logger, r, reads)
  | .levelname => (logger.levelname env r, logger, r, reads)
  | .created => (logger.created r, logger, r, reads)
  | .nsecs => (logger.nsecs r, logger, r, reads)
  | .time => ((logger.time env r reads).1, logger, (logger.time env r reads).2)
  | .timestamp => ((logger.timestamp env r reads).1, logger, (logger.timestamp env r reads).2)
  | .rtime => ((logger.rtime env r reads).1, logger, (logger.rtime env r reads).2)
  | .filename => (logger.filename r, logger, r, reads)
  | .pathname => (logger.pathname r, logger, r, reads)
  | .module => (logger.module env r, logger, r, reads)
  | .lineno => (logger.lineno r, logger, r, reads)
  | .funcname => (logger.funcname r, logger, r, reads)
  | .process => ((logger.process env r).1, logger, (logger.process env r).2, reads)
  | .message => (logger.message r, logger, r, reads)

/-! ## signals.go -/

/-- What a receive on the signal channel yields: a delivered signal, or the
report that the channel is closed. -/
inductive SigEvent where
  | signal
  | closed
deriving DecidableEq, Repr

/-- State of the reopen loop: still receiving, or stopped by a panic with the
given value. -/
inductive LoopState where
  | Listening
  | Terminated (reason : String)
deriving DecidableEq, Repr

/-- One turn of the body of the `for` loop of `ReopenOnSignalLoop`, for the
event received from the channel.  `reopen i` is the error returned by the i-th
call of `l.Reopen()` (`none` for nil); the counter is the number of calls of
`Reopen` made so far. -/
def reopenLoopBody (reopen : Nat → Option String) (reopens : Nat) :
    SigEvent → LoopState × Nat
  | .closed => (LoopState.Terminated "Channel closed unexpectedly", reopens)
  | .signal =>
    match reopen reopens with
    | none => (LoopState.Listening, reopens + 1)
    | some err => (LoopState.Terminated err, reopens + 1)

/-- The method `(*Logger).ReopenOnSignalLoop` driven by the events the channel delivers:
the loop goes on while the body does not panic; with no event left it is blocked
on the receive, still listening.  After a panic no further event is received. -/
def ReopenOnSignalLoop (reopen : Nat → Option String) :
    List SigEvent → Nat → LoopState × Nat
  | [], reopens => (LoopState.Listening, reopens)
  | e :: es, reopens =>
    match reopenLoopBody reopen reopens e with
    | (LoopState.Listening, n) => ReopenOnSignalLoop reopen es n
    | (LoopState.Terminated reason, n) => (LoopState.Terminated reason, n)

/-! ## Specification-side definitions -/

/-- The four stack-derived field names. -/
def stackNames : List String := ["filename", "pathname", "lineno", "funcname"]

/-- The request as `NewRequest` has it before the loop over `recordArgs`. -/
def initialRequest (level : Level) (format : String) (v : List Value) : request :=
  { level := level, format := format, pathname := "", filename := "",
    lineno := 0, funcname := "", v := v }

/-- No stack field of the request holds a value yet. -/
def Unset (r : request) : Prop :=
  r.pathname = "" ∧ r.filename = "" ∧ r.lineno = 0 ∧ r.funcname = ""

/-- Every stack field of the request differs from its zero value, so that no
setter walks the stack again. -/
def Settled (r : request) : Prop :=
  r.pathname ≠ "" ∧ r.filename ≠ "" ∧ r.lineno ≠ 0 ∧ r.funcname ≠ ""

instance (r : request) : Decidable (Unset r) := by
  unfold Unset; infer_instance

instance (r : request) : Decidable (Settled r) := by
  unfold Settled; infer_instance

/-- The short function name as the specification words it: the suffix of the
name after its last `.`, and the name itself when it contains no `.`. -/
def afterLastDot (s : List Char) : List Char :=
  if '.' ∈ s then (s.reverse.takeWhile (fun c => c != '.')).reverse else s

/-! ## Concrete inputs used in the examples -/

/-- An instant in November 2026, read five seconds after the monotonic clock
started. -/
def exampleInstant : Time := ⟨63929347200000000000, some 5000000000⟩

/-- The instant one second before `exampleInstant` on both clocks. -/
def exampleStart : Time := ⟨63929347199000000000, some 4000000000⟩

/-- An instant before `exampleInstant` by 3186627 ns on the wall clock and by
3186635 ns on the monotonic clock: the wall clock was set back by 8 ns in
between. -/
def exampleSteppedStart : Time := ⟨63929347199996813373, some 4996813365⟩

/-- An environment whose clock shows `first` at the first read and
`exampleInstant` afterwards, with the given outcome of the stack walk. -/
def exampleEnv (first : Time) (caller : Option Frame) : Env :=
  { now := fun i => if i = 0 then first else exampleInstant
    format := fun t layout => layout ++ "@" ++ toString t.ns
    caller := caller
    getpid := 4242
    executable := "/usr/local/bin/app"
    levelNames := fun l => if l = 20 then "INFO" else "DEBUG" }

/-- A logger with the given counter, start time and field list. -/
def exampleLogger (seqid : Nat) (start : Time) (recordArgs : List String) : Logger :=
  { name := "app", seqid := seqid, startTime := start,
    timeFormat := "2006-01-02 15:04:05.000000", recordArgs := recordArgs }

/-- A request that captured no stack field. -/
def exampleRequest : request := initialRequest 20 "%s" [Value.str "a"]

/-- The outcome of `Reopen` in the examples: the third call fails. -/
def exampleReopen (i : Nat) : Option String := if i = 2 then some "open: permission denied" else none

/-! ## Theorems -/

/-! ### Sequence numbers -/

theorem addUint64_one_of_lt (c : Nat) (h : c + 1 < two64) : addUint64 c 1 = c + 1 := by
  simp [addUint64, Nat.mod_eq_of_lt h]

theorem nextSeqid_fresh (l : Logger) (r : record) (h0 : r.seqid = 0) :
    l.nextSeqid r =
      (Value.uint64 (addUint64 l.seqid 1), { l with seqid := addUint64 l.seqid 1 },
        { r with seqid := addUint64 l.seqid 1 }) := by
  simp [Logger.nextSeqid, h0]

theorem nextSeqid_cached (l : Logger) (r : record) (h0 : r.seqid ≠ 0) :
    l.nextSeqid r = (Value.uint64 r.seqid, l, r) := by
  simp [Logger.nextSeqid, h0]

theorem seqidCalls_cached (n : Nat) (l : Logger) (r : record) (h0 : r.seqid ≠ 0) :
    seqidCalls n l r = List.replicate n (Value.uint64 r.seqid, l.seqid) := by
  induction n with
  | zero => rfl
  | succ k ih => simp [seqidCalls, nextSeqid_cached l r h0, ih, List.replicate_succ]

/-- C1 (amended): for a logger whose counter is below 2^64 - 1 and a record
fresh from `NewRecord`, `n` calls of `nextSeqid` on that record all return
counter + 1, and the logger's counter reads counter + 1 after each of them: the
first call increments it once and no later call touches it. -/
theorem nextSeqid_same_value_one_increment (l : Logger) (req : request) (msg : String)
    (n : Nat) (hc : l.seqid + 1 < two64) :
    seqidCalls n l (NewRecord req msg)
      = List.replicate n (Value.uint64 (l.seqid + 1), l.seqid + 1) := by
  cases n with
  | zero => rfl
  | succ k =>
    have hfresh : (NewRecord req msg).seqid = 0 := rfl
    rw [seqidCalls, nextSeqid_fresh l _ hfresh, addUint64_one_of_lt _ hc]
    simp only []
    rw [seqidCalls_cached k _ _ (by simp), List.replicate_succ]

/-- Witness for C1: three calls on a fresh record with the counter at 7 all
return 8 and leave the counter at 8. -/
theorem nextSeqid_same_value_one_increment_witness :
    (exampleLogger 7 exampleInstant ["seqid"]).seqid + 1 < two64 ∧
    seqidCalls 3 (exampleLogger 7 exampleInstant ["seqid"]) (NewRecord exampleRequest "a")
      = List.replicate 3
          (Value.uint64 ((exampleLogger 7 exampleInstant ["seqid"]).seqid + 1),
            (exampleLogger 7 exampleInstant ["seqid"]).seqid + 1) :=
  ⟨by decide,
   nextSeqid_same_value_one_increment (exampleLogger 7 exampleInstant ["seqid"])
     exampleRequest "a" 3 (by decide)⟩

/-- Counterexample to C1 as stated: with the counter at 2^64 - 1 the increment
wraps to 0, the value that marks a record as unassigned; the first call returns
0, the second call increments again and returns 1, so the two calls disagree
and the counter is incremented twice. -/
theorem nextSeqid_wrap_increments_twice :
    seqidCalls 2 (exampleLogger 18446744073709551615 exampleInstant ["seqid"])
        (NewRecord exampleRequest "a")
      = [(Value.uint64 0, 0), (Value.uint64 1, 1)] := by
  decide

theorem seqidRun_range (reqs : List (request × String)) :
    ∀ l : Logger, l.seqid + reqs.length < two64 →
      (seqidRun l reqs).1 = List.range' (l.seqid + 1) reqs.length ∧
      (seqidRun l reqs).2.seqid = l.seqid + reqs.length := by
  induction reqs with
  | nil => intro l _; simp [seqidRun]
  | cons p rest ih =>
    intro l hl
    obtain ⟨req, msg⟩ := p
    have hlen : (((req, msg) :: rest) : List (request × String)).length = rest.length + 1 := rfl
    rw [hlen] at hl
    have h1 : l.seqid + 1 < two64 := by omega
    have hfresh : (NewRecord req msg).seqid = 0 := rfl
    have hstep := nextSeqid_fresh l _ hfresh
    rw [addUint64_one_of_lt _ h1] at hstep
    have hrec := ih { l with seqid := l.seqid + 1 } (by simp only []; omega)
    simp only [seqidRun, hstep, hlen]
    refine ⟨?_, ?_⟩
    · rw [hrec.1]; simp [List.range'_succ]
    · rw [hrec.2]; simp only []; omega

/-- C2 (amended): in a sequential run of k fresh records against a logger
whose counter c satisfies c + k < 2^64 (no wrap-around during the run), the
resolved sequence numbers are c + 1, ..., c + k in that order; hence each is
strictly greater than every earlier one, and a logger starting at 0 yields
1, 2, ..., k. -/
theorem seqidRun_strictly_increasing (l : Logger) (reqs : List (request × String))
    (hc : l.seqid + reqs.length < two64) :
    (seqidRun l reqs).1 = List.range' (l.seqid + 1) reqs.length ∧
    (seqidRun l reqs).1.Pairwise (fun a b => a < b) ∧
    (l.seqid = 0 → (seqidRun l reqs).1 = List.range' 1 reqs.length) := by
  have h := (seqidRun_range reqs l hc).1
  refine ⟨h, ?_, ?_⟩
  · rw [h]; exact List.pairwise_lt_range' _ _
  · intro h0; rw [h, h0]

/-- Witness for C2: three records with messages a, b, c against a logger
starting at 0 receive 1, 2, 3. -/
theorem seqidRun_strictly_increasing_witness :
    (exampleLogger 0 exampleInstant ["seqid", "levelname", "message"]).seqid
        + [(exampleRequest, "a"), (exampleRequest, "b"), (exampleRequest, "c")].length < two64 ∧
    (seqidRun (exampleLogger 0 exampleInstant ["seqid", "levelname", "message"])
        [(exampleRequest, "a"), (exampleRequest, "b"), (exampleRequest, "c")]).1 = [1, 2, 3] :=
  ⟨by decide,
   (seqidRun_strictly_increasing
      (exampleLogger 0 exampleInstant ["seqid", "levelname", "message"])
      [(exampleRequest, "a"), (exampleRequest, "b"), (exampleRequest, "c")] (by decide)).1⟩

/-- Counterexample to C2 as stated: with the counter at 2^64 - 2 the first
record receives 2^64 - 1 and the next record receives 0, which is not greater. -/
theorem seqidRun_wrap_not_increasing :
    (seqidRun (exampleLogger 18446744073709551614 exampleInstant ["seqid"])
        [(exampleRequest, "a"), (exampleRequest, "b")]).1
      = [18446744073709551615, 0] := by
  decide

/-! ### The lazy time cache -/

theorem timeField_call_cached (env : Env) (l : Logger) (f : TimeField) (r : record)
    (reads : Nat) (h : r.time.IsZero = false) :
    f.call env l r reads = (f.render env l r.time, r, reads) := by
  cases f <;>
    simp [TimeField.call, TimeField.render, Logger.time, Logger.timestamp, Logger.rtime, h]

theorem timeField_call_fresh (env : Env) (l : Logger) (f : TimeField) (r : record)
    (reads : Nat) (h : r.time.IsZero = true) :
    f.call env l r reads
      = (f.render env l (env.now reads), { r with time := env.now reads }, reads + 1) := by
  cases f <;>
    simp [TimeField.call, TimeField.render, Logger.time, Logger.timestamp, Logger.rtime, h]

theorem timeCalls_cached (env : Env) (l : Logger) (calls : List TimeField) :
    ∀ (r : record) (reads : Nat), r.time.IsZero = false →
      timeCalls env l calls r reads = calls.map (fun f => (f.render env l r.time, reads)) := by
  induction calls with
  | nil => intro r reads _; rfl
  | cons f fs ih =>
    intro r reads h
    simp only [timeCalls, timeField_call_cached env l f r reads h, List.map_cons]
    rw [ih r reads h]

theorem timeCalls_fresh (env : Env) (l : Logger) (calls : List TimeField) (r : record)
    (reads : Nat) (hz : r.time.IsZero = true) (hnow : (env.now reads).IsZero = false) :
    timeCalls env l calls r reads
      = calls.map (fun g => (g.render env l (env.now reads), reads + 1)) := by
  cases calls with
  | nil => rfl
  | cons f fs =>
    simp only [timeCalls, timeField_call_fresh env l f r reads hz, List.map_cons]
    rw [timeCalls_cached env l fs _ (reads + 1) hnow]

theorem wrapInt64_of_mem (x : Int) (h1 : minInt64 ≤ x) (h2 : x ≤ maxInt64) :
    wrapInt64 x = x := by
  unfold wrapInt64 two64 minInt64 maxInt64 at *
  omega

theorem wrapInt64_sub_wrapInt64 (a b : Int) :
    wrapInt64 (wrapInt64 a - wrapInt64 b) = wrapInt64 (a - b) := by
  unfold wrapInt64 two64 minInt64
  omega

theorem saturate_of_mem (d : Int) (h1 : minInt64 ≤ d) (h2 : d ≤ maxInt64) :
    Time.saturate d = d := by
  unfold Time.saturate
  rw [if_neg (by omega), if_neg (by omega)]

theorem subNanoseconds_mono (t u : Time) (a b : Int) (ht : t.mono = some a)
    (hu : u.mono = some b) : t.SubNanoseconds u = Time.saturate (a - b) := by
  unfold Time.SubNanoseconds
  rw [ht, hu]

theorem subNanoseconds_wall (t u : Time) (h : t.mono = none ∨ u.mono = none) :
    t.SubNanoseconds u = Time.saturate (t.ns - u.ns) := by
  unfold Time.SubNanoseconds
  rcases h with h | h
  · rw [h]
  · rw [h]
    cases t.mono <;> rfl

theorem wall_difference_eq (t u : Time) (h1 : minInt64 ≤ t.ns - u.ns)
    (h2 : t.ns - u.ns ≤ maxInt64) :
    wrapInt64 (t.UnixNano - u.UnixNano) = t.ns - u.ns := by
  unfold Time.UnixNano
  rw [wrapInt64_sub_wrapInt64]
  have : t.ns - Time.unixToInternal * 1000000000 - (u.ns - Time.unixToInternal * 1000000000)
      = t.ns - u.ns := by ring
  rw [this, wrapInt64_of_mem _ h1 h2]

/-- C3 (amended): with a clock whose next reading t is not the zero time (no
reading of `time.Now()` is), any sequence of `time`, `timestamp` and `rtime`
calls on a record whose time is unset (as on every record fresh from
`NewRecord`) reads the clock in its first call only and returns the rendering
of t in every call; on a record whose time is already set the clock is not read
and every call renders the stored instant.  `timestamp` renders t as its Unix
nanoseconds, `time` as t formatted with the logger's layout, and `rtime` as
`t.Sub(startTime)` in nanoseconds: the difference of the monotonic readings
when t and the start time both carry one, and the difference of the wall-clock
readings, which is the `int64` value of timestamp minus created, only when one
of them carries none (each difference within the `int64` range). -/
theorem timeCalls_single_instant (env : Env) (l : Logger) (r : record)
    (calls : List TimeField) (reads : Nat) (hnow : (env.now reads).IsZero = false) :
    (r.time.IsZero = true →
      timeCalls env l calls r reads
        = calls.map (fun g => (g.render env l (env.now reads), reads + 1))) ∧
    (r.time.IsZero = false →
      timeCalls env l calls r reads = calls.map (fun g => (g.render env l r.time, reads))) ∧
    (∀ (req : request) (msg : String), (NewRecord req msg).time.IsZero = true) ∧
    (∀ t : Time,
      TimeField.timestamp.render env l t = Value.int64 t.UnixNano ∧
      TimeField.time.render env l t = Value.str (env.format t l.timeFormat) ∧
      TimeField.rtime.render env l t = Value.int64 (t.SubNanoseconds l.startTime) ∧
      l.created r = Value.int64 l.startTime.UnixNano ∧
      (∀ a b : Int, t.mono = some a → l.startTime.mono = some b →
        minInt64 ≤ a - b → a - b ≤ maxInt64 → t.SubNanoseconds l.startTime = a - b) ∧
      (t.mono = none ∨ l.startTime.mono = none →
        minInt64 ≤ t.ns - l.startTime.ns → t.ns - l.startTime.ns ≤ maxInt64 →
        t.SubNanoseconds l.startTime = wrapInt64 (t.UnixNano - l.startTime.UnixNano))) := by
  refine ⟨fun hz => timeCalls_fresh env l calls r reads hz hnow,
    fun hz => timeCalls_cached env l calls r reads hz, fun _ _ => rfl, fun t => ?_⟩
  refine ⟨rfl, rfl, rfl, rfl, ?_, ?_⟩
  · intro a b ht hu h1 h2
    rw [subNanoseconds_mono t l.startTime a b ht hu, saturate_of_mem _ h1 h2]
  · intro hm h1 h2
    rw [subNanoseconds_wall t l.startTime hm, saturate_of_mem _ h1 h2,
      wall_difference_eq t l.startTime h1 h2]

/-- Witness for C3: with the clock at an instant of November 2026 and a logger
started one second earlier, `timestamp`, `time`, `rtime`, `timestamp` on a fresh
record read the clock once and return values of that one instant. -/
theorem timeCalls_single_instant_witness :
    ((exampleEnv exampleInstant none).now 0).IsZero = false ∧
    (NewRecord exampleRequest "a").time.IsZero = true ∧
    timeCalls (exampleEnv exampleInstant none)
        (exampleLogger 0 exampleStart ["time", "timestamp", "rtime"])
        [TimeField.timestamp, TimeField.time, TimeField.rtime, TimeField.timestamp]
        (NewRecord exampleRequest "a") 0
      = [TimeField.timestamp, TimeField.time, TimeField.rtime, TimeField.timestamp].map
          (fun g =>
            (g.render (exampleEnv exampleInstant none)
                (exampleLogger 0 exampleStart ["time", "timestamp", "rtime"])
                ((exampleEnv exampleInstant none).now 0), 0 + 1)) :=
  ⟨rfl, rfl,
   (timeCalls_single_instant (exampleEnv exampleInstant none)
      (exampleLogger 0 exampleStart ["time", "timestamp", "rtime"])
      (NewRecord exampleRequest "a")
      [TimeField.timestamp, TimeField.time, TimeField.rtime, TimeField.timestamp] 0 rfl).1 rfl⟩

/-- Counterexample to C3 as stated: the logger's start time and the instant
read for the record both come from `time.Now()` and carry monotonic readings;
the wall clock was set back by 8 ns in between.  `timestamp` returns
1793750400000000000, `created` returns 1793750399996813373, so timestamp minus
created is 3186627, while `rtime` returns 3186635, the difference of the
monotonic readings. -/
theorem rtime_differs_from_timestamp_minus_created :
    timeCalls (exampleEnv exampleInstant none)
        (exampleLogger 0 exampleSteppedStart ["timestamp", "rtime"])
        [TimeField.timestamp, TimeField.rtime] (NewRecord exampleRequest "a") 0
      = [(Value.int64 1793750400000000000, 1), (Value.int64 3186635, 1)] ∧
    (exampleLogger 0 exampleSteppedStart ["timestamp", "rtime"]).created
        (NewRecord exampleRequest "a") = Value.int64 1793750399996813373 ∧
    wrapInt64 (1793750400000000000 - 1793750399996813373) = 3186627 := by
  refine ⟨by decide, by decide, by decide⟩

/-! ### The short function name -/

theorem takeWhile_append_of_exists (p : Char → Bool) (l m : List Char)
    (h : ∃ y ∈ l, p y = false) : (l ++ m).takeWhile p = l.takeWhile p := by
  induction l with
  | nil => simp at h
  | cons a t ih =>
    by_cases ha : p a = true
    · have ht : ∃ y ∈ t, p y = false := by
        obtain ⟨y, hy, hpy⟩ := h
        rcases List.mem_cons.mp hy with rfl | hy
        · rw [ha] at hpy; cases hpy
        · exact ⟨y, hy, hpy⟩
      simp [List.takeWhile, ha, ih ht]
    · simp [List.takeWhile, ha]

theorem afterLastDot_append_dot (p suf : List Char) (hs : '.' ∉ suf) :
    afterLastDot (p ++ '.' :: suf) = suf := by
  unfold afterLastDot
  rw [if_pos (by simp)]
  rw [List.reverse_append, List.reverse_cons, List.append_assoc]
  rw [List.takeWhile_append_of_pos]
  · simp [List.takeWhile]
  · intro c hc
    have : c ∈ suf := by simpa using hc
    have hne : c ≠ '.' := fun h => hs (h ▸ this)
    simpa using hne

theorem afterLastDot_concat (q : List Char) (x : Char) (hq : '.' ∈ q) (hx : x ≠ '.') :
    afterLastDot (q ++ [x]) = afterLastDot q ++ [x] := by
  unfold afterLastDot
  rw [if_pos (by simp [hq]), if_pos hq]
  simp [List.takeWhile, hx]

theorem afterLastDot_cons (c : Char) (rest : List Char) (h : '.' ∈ rest) :
    afterLastDot (c :: rest) = afterLastDot rest := by
  unfold afterLastDot
  rw [if_pos (by simp [h]), if_pos h, List.reverse_cons,
    takeWhile_append_of_exists _ _ _ ⟨ '.', by simpa using h, by simp⟩]

/-- Loop invariant of the scan: with the indices above `i` free of `.`, the
loop entered at `i` finds the last `.` among the indices 1 to `i`. -/
theorem shortLoop_spec : ∀ (i : Nat) (pre suf : List Char), pre.length = i + 1 → '.' ∉ suf →
    shortLoop (pre ++ suf) i
      = if '.' ∈ pre.tail then afterLastDot pre.tail ++ suf else pre ++ suf := by
  intro i
  induction i with
  | zero =>
    intro pre suf hlen _
    match pre, hlen with
    | [c], _ => simp [shortLoop]
  | succ k ih =>
    intro pre suf hlen hs
    obtain ⟨p, x, rfl⟩ : ∃ p x, pre = p ++ [x] := by
      rcases List.eq_nil_or_concat pre with h | ⟨p, x, h⟩
      · subst h; simp at hlen
      · exact ⟨p, x, by simpa using h⟩
    have hp : p.length = k + 1 := by simpa using hlen
    obtain ⟨c, q, rfl⟩ : ∃ c q, p = c :: q := by
      cases p with
      | nil => simp at hp
      | cons c q => exact ⟨c, q, rfl⟩
    have hq : q.length = k := by simpa using hp
    have hget : ((c :: q) ++ [x] ++ suf)[k + 1]? = some x := by
      rw [List.append_assoc, List.getElem?_append_right (by simp [hq])]
      simp [hq]
    have hdrop : ((c :: q) ++ [x] ++ suf).drop (k + 2) = suf := by
      rw [List.append_assoc, List.drop_append_eq_append_drop]
      simp [hq]
    rw [shortLoop, hget]
    by_cases hx : x = '.'
    · subst hx
      rw [if_pos rfl, hdrop]
      have h1 : '.' ∈ ((c :: q) ++ ['.']).tail := by simp
      rw [if_pos h1]
      have h2 : ((c :: q) ++ ['.']).tail = q ++ '.' :: [] := by simp
      rw [h2, afterLastDot_append_dot q [] (by simp)]
      simp
    · rw [if_neg (by simpa using hx)]
      have hs2 : '.' ∉ x :: suf := by
        simp only [List.mem_cons, not_or]
        exact ⟨fun h => hx h.symm, hs⟩
      have := ih (c :: q) (x :: suf) hp hs2
      rw [show (c :: q) ++ [x] ++ suf = (c :: q) ++ x :: suf by simp, this]
      simp only [List.tail_cons]
      by_cases hq : '.' ∈ q
      · have h1 : '.' ∈ ((c :: q) ++ [x]).tail := by simp [hq]
        have h2 : ((c :: q) ++ [x]).tail = q ++ [x] := by simp
        rw [if_pos hq, if_pos h1, h2, afterLastDot_concat q x hq hx]
        simp
      · have h1 : '.' ∉ ((c :: q) ++ [x]).tail := by
          simp [hq]; exact fun h => hx h.symm
        rw [if_neg hq, if_neg h1]

theorem shortLoop_whole (c : Char) (rest : List Char) :
    shortLoop (c :: rest) rest.length
      = if '.' ∈ rest then afterLastDot rest else c :: rest := by
  have := shortLoop_spec rest.length (c :: rest) [] (by simp) (by simp)
  simpa using this

theorem shortName_char (s : String) :
    shortName s = String.mk
      (match s.data with
       | [] => []
       | c :: rest => if '.' ∈ rest then afterLastDot rest else c :: rest) := by
  unfold shortName
  cases h : s.data with
  | nil => simp [shortLoop]
  | cons c rest => simp [shortLoop_whole]

theorem shortName_of_head (s : String) (h : s.data.head? ≠ some '.') :
    shortName s = String.mk (afterLastDot s.data) := by
  rw [shortName_char]
  cases hs : s.data with
  | nil => simp [afterLastDot]
  | cons c rest =>
    rw [hs] at h
    have hc : c ≠ '.' := by simpa using h
    simp only []
    by_cases hr : '.' ∈ rest
    · rw [if_pos hr, afterLastDot_cons c rest hr]
    · rw [if_neg hr]
      have : '.' ∉ c :: rest := by simp [hr]; exact fun h => hc h.symm
      simp [afterLastDot, this]

theorem shortName_no_dot (s : String) (h : '.' ∉ s.data) : shortName s = s := by
  rw [shortName_char]
  cases hs : s.data with
  | nil =>
    simp only []
    exact String.ext (by simp [hs])
  | cons c rest =>
    rw [hs] at h
    have hr : '.' ∉ rest := fun hm => h (List.mem_cons_of_mem _ hm)
    simp only []
    rw [if_neg hr]
    exact String.ext (by simp [hs])

theorem shortName_split (s : String) (p suf : List Char) (hs : s.data = p ++ '.' :: suf)
    (hp : p ≠ []) (hsuf : '.' ∉ suf) : shortName s = String.mk suf := by
  rw [shortName_char]
  cases p with
  | nil => exact absurd rfl hp
  | cons c q =>
    rw [hs]
    have hmem : '.' ∈ q ++ '.' :: suf := by simp
    simp only [List.cons_append]
    rw [if_pos hmem, afterLastDot_append_dot q suf hsuf]

/-- C8 (amended): when the walk succeeds with function name s, the name that
`genRuntime` stores in `funcname` is s itself when s contains no `.`, and is
the suffix of s after its last `.` whenever that `.` is not the first character
of s (s splits as p, `.`, suffix with p non-empty and no `.` in the suffix);
this is the suffix the specification describes, `afterLastDot`. -/
theorem genRuntime_funcname_after_last_dot (env : Env) (r : request) (walks : Nat)
    (f : Frame) (hok : env.caller = some f) :
    ('.' ∉ f.fname.data → (genRuntime env r walks).1.funcname = f.fname) ∧
    (∀ p suf : List Char, f.fname.data = p ++ '.' :: suf → p ≠ [] → '.' ∉ suf →
      (genRuntime env r walks).1.funcname = String.mk suf ∧
      afterLastDot f.fname.data = suf) := by
  have hf : (genRuntime env r walks).1.funcname = shortName f.fname := by
    unfold genRuntime; rw [hok]
  rw [hf]
  refine ⟨shortName_no_dot f.fname, fun p suf hs hp hsuf => ⟨?_, ?_⟩⟩
  · exact shortName_split f.fname p suf hs hp hsuf
  · rw [hs, afterLastDot_append_dot p suf hsuf]

/-- Witness for C8: for a method of a type in an imported package the stored
name is the method name. -/
theorem genRuntime_funcname_after_last_dot_witness :
    (exampleEnv exampleInstant
        (some ⟨"/src/app/main.go", 42, "github.com/x/app.(*Server).Run"⟩)).caller
      = some ⟨"/src/app/main.go", 42, "github.com/x/app.(*Server).Run"⟩ ∧
    "github.com/x/app.(*Server).Run".data
      = "github.com/x/app.(*Server)".data ++ '.' :: "Run".data ∧
    "github.com/x/app.(*Server)".data ≠ [] ∧ '.' ∉ "Run".data ∧
    (genRuntime
        (exampleEnv exampleInstant
          (some ⟨"/src/app/main.go", 42, "github.com/x/app.(*Server).Run"⟩))
        exampleRequest 0).1.funcname = String.mk "Run".data :=
  ⟨rfl, by decide, by decide, by decide,
   ((genRuntime_funcname_after_last_dot
      (exampleEnv exampleInstant
        (some ⟨"/src/app/main.go", 42, "github.com/x/app.(*Server).Run"⟩))
      exampleRequest 0 ⟨"/src/app/main.go", 42, "github.com/x/app.(*Server).Run"⟩ rfl).2
      "github.com/x/app.(*Server)".data "Run".data (by decide) (by decide) (by decide)).1⟩

/-- Counterexample to C8 as stated: the scan stops before index 0, so for the
name `.foo`, whose last `.` is its first character, `genRuntime` stores `.foo`
whole, while the suffix after the last `.` is `foo`. -/
theorem genRuntime_funcname_leading_dot :
    (genRuntime (exampleEnv exampleInstant (some ⟨"/src/app/main.go", 42, ".foo"⟩))
        exampleRequest 0).1.funcname = ".foo" ∧
    ".foo".data = [] ++ '.' :: "foo".data ∧ '.' ∉ "foo".data ∧
    String.mk (afterLastDot ".foo".data) = "foo" := by
  refine ⟨by decide, by decide, by decide, by decide⟩

/-! ### Requests and the stack walk -/

theorem runtimeFieldsAt_iff (v : String) : runtimeFieldsAt v = true ↔ v ∈ stackNames := by
  unfold runtimeFieldsAt runtimeFields stackNames
  simp only [List.lookup]
  repeat' split
  all_goals simp_all

theorem setRequestFieldsAt_isSome_iff (v : String) :
    (setRequestFieldsAt v).isSome = true ↔ v ∈ stackNames := by
  unfold setRequestFieldsAt setRequestFields stackNames
  simp only [List.lookup]
  repeat' split
  all_goals simp_all

theorem genRuntime_walks (env : Env) (r : request) (w : Nat) :
    (genRuntime env r w).2 = w + 1 := by
  unfold genRuntime; cases env.caller <;> rfl

theorem genRuntime_idem (env : Env) (r : request) (w w2 : Nat) :
    (genRuntime env (genRuntime env r w).1 w2).1 = (genRuntime env r w).1 := by
  unfold genRuntime; cases env.caller <;> rfl

theorem setter_call_cases (env : Env) (f : Setter) (r : request) (w : Nat) :
    f.call env r w = (r, w) ∨ f.call env r w = genRuntime env r w := by
  cases f <;>
    simp only [Setter.call, request.setFilename, request.setPathname, request.setLineno,
      request.setFuncname] <;>
    split <;> simp

theorem setter_call_unset (env : Env) (f : Setter) (r : request) (w : Nat) (h : Unset r) :
    f.call env r w = genRuntime env r w := by
  obtain ⟨h1, h2, h3, h4⟩ := h
  cases f <;>
    simp [Setter.call, request.setFilename, request.setPathname, request.setLineno,
      request.setFuncname, h1, h2, h3, h4]

theorem setter_call_settled (env : Env) (f : Setter) (r : request) (w : Nat) (h : Settled r) :
    f.call env r w = (r, w) := by
  obtain ⟨h1, h2, h3, h4⟩ := h
  cases f <;>
    simp [Setter.call, request.setFilename, request.setPathname, request.setLineno,
      request.setFuncname, h1, h2, h3, h4]

theorem evalRuntimeArgs_nostack (env : Env) (args : List String) :
    ∀ (r : request) (w : Nat), (∀ name ∈ args, name ∉ stackNames) →
      evalRuntimeArgs env args r w = some (r, w) := by
  induction args with
  | nil => intro r w _; rfl
  | cons a rest ih =>
    intro r w h
    have ha : runtimeFieldsAt a = false := by
      have := h a (List.mem_cons_self _ _)
      rw [← runtimeFieldsAt_iff] at this
      simpa using this
    rw [evalRuntimeArgs, ha]
    simpa using ih r w (fun n hn => h n (List.mem_cons_of_mem _ hn))

theorem evalRuntimeArgs_settled (env : Env) (args : List String) :
    ∀ (r : request) (w : Nat), Settled r → evalRuntimeArgs env args r w = some (r, w) := by
  induction args with
  | nil => intro r w _; rfl
  | cons a rest ih =>
    intro r w h
    rw [evalRuntimeArgs]
    split
    · rename_i ha
      have hs := (setRequestFieldsAt_isSome_iff a).mpr ((runtimeFieldsAt_iff a).mp ha)
      obtain ⟨f, hf⟩ := Option.isSome_iff_exists.mp hs
      rw [hf]
      simp only [setter_call_settled env f r w h]
      exact ih r w h
    · exact ih r w h

theorem evalRuntimeArgs_captured (env : Env) (args : List String) :
    ∀ (r : request) (w : Nat), (genRuntime env r 0).1 = r →
      ∃ n, evalRuntimeArgs env args r w = some (r, w + n) := by
  induction args with
  | nil => intro r w _; exact ⟨0, rfl⟩
  | cons a rest ih =>
    intro r w h
    rw [evalRuntimeArgs]
    split
    · rename_i ha
      have hs := (setRequestFieldsAt_isSome_iff a).mpr ((runtimeFieldsAt_iff a).mp ha)
      obtain ⟨f, hf⟩ := Option.isSome_iff_exists.mp hs
      rw [hf]
      rcases setter_call_cases env f r w with hc | hc
      · simp only [hc]; exact ih r w h
      · have h1 : (genRuntime env r w).1 = r := by
          have : (genRuntime env r w).1 = (genRuntime env r 0).1 := by
            unfold genRuntime; cases env.caller <;> rfl
          rw [this, h]
        simp only [hc, h1, genRuntime_walks]
        obtain ⟨n, hn⟩ := ih r (w + 1) h
        exact ⟨n + 1, by rw [hn]; congr 2; omega⟩
    · exact ih r w h

/-- From an unset request and a field list naming a stack field, the loop of
`NewRequest` ends with the fields written by the walk of the first stack name;
later stack names add walks only while their own field still looks unset. -/
theorem evalRuntimeArgs_first (env : Env) (args : List String) :
    ∀ (r : request) (w : Nat), Unset r → (∃ name ∈ args, name ∈ stackNames) →
      ∃ n, evalRuntimeArgs env args r w = some ((genRuntime env r w).1, w + 1 + n) ∧
        (Settled (genRuntime env r w).1 → n = 0) := by
  induction args with
  | nil => intro r w _ h; simp at h
  | cons a rest ih =>
    intro r w hu h
    rw [evalRuntimeArgs]
    split
    · rename_i ha
      have hs := (setRequestFieldsAt_isSome_iff a).mpr ((runtimeFieldsAt_iff a).mp ha)
      obtain ⟨f, hf⟩ := Option.isSome_iff_exists.mp hs
      rw [hf]
      simp only [setter_call_unset env f r w hu, genRuntime_walks]
      obtain ⟨n, hn⟩ := evalRuntimeArgs_captured env rest (genRuntime env r w).1 (w + 1)
        (genRuntime_idem env r w 0)
      refine ⟨n, hn, fun hset => ?_⟩
      rw [evalRuntimeArgs_settled env rest _ (w + 1) hset] at hn
      simp at hn
      omega
    · rename_i ha
      have hna : a ∉ stackNames := fun hm => ha ((runtimeFieldsAt_iff a).mpr hm)
      obtain ⟨name, hmem, hst⟩ := h
      rcases List.mem_cons.mp hmem with rfl | hmem
      · exact absurd hst hna
      · exact ih r w hu ⟨name, hmem, hst⟩

theorem pathBase_ne_empty (p : String) : pathBase p ≠ "" := by
  unfold pathBase
  split
  · decide
  · simp only []
    split
    · decide
    · rename_i _ h
      intro hc
      exact h (by simpa using congrArg String.data hc)

theorem initialRequest_unset (level : Level) (format : String) (v : List Value) :
    Unset (initialRequest level format v) := ⟨rfl, rfl, rfl, rfl⟩

theorem genRuntime_settled (env : Env) (r : request) (w : Nat)
    (hgood : ∀ f, env.caller = some f → f.file ≠ "" ∧ f.line ≠ 0 ∧ shortName f.fname ≠ "") :
    Settled (genRuntime env r w).1 := by
  unfold genRuntime
  cases hc : env.caller with
  | none =>
    refine ⟨?_, ?_, ?_, ?_⟩ <;> simp only [] <;> decide
  | some f =>
    obtain ⟨h1, h2, h3⟩ := hgood f hc
    exact ⟨h1, pathBase_ne_empty _, h2, h3⟩

theorem NewRequest_returns (env : Env) (logger : Logger) (level : Level) (format : String)
    (v : List Value) (walks : Nat) :
    ∃ r w, NewRequest env logger level format v walks = some (r, w) := by
  by_cases hcfg : ∃ name ∈ logger.recordArgs, name ∈ stackNames
  · obtain ⟨n, hn, _⟩ := evalRuntimeArgs_first env logger.recordArgs
      (initialRequest level format v) walks (initialRequest_unset _ _ _) hcfg
    exact ⟨_, _, hn⟩
  · have hno : ∀ name ∈ logger.recordArgs, name ∉ stackNames := by
      intro name hm hs; exact hcfg ⟨name, hm, hs⟩
    exact ⟨_, _, evalRuntimeArgs_nostack env logger.recordArgs _ walks hno⟩

/-- C4 (amended): for every logger whose `recordArgs` names at least one of
filename, pathname, lineno, funcname, `NewRequest` walks the stack at least
once and returns the request whose four stack fields are the values written by
the walk; it walks exactly once whenever the walk fails, or succeeds with a
non-empty file path, a non-zero line and a non-empty short function name. -/
theorem NewRequest_single_walk (env : Env) (logger : Logger) (level : Level)
    (format : String) (v : List Value) (walks : Nat)
    (hcfg : ∃ name ∈ logger.recordArgs, name ∈ stackNames) :
    (∃ n, NewRequest env logger level format v walks
        = some ((genRuntime env (initialRequest level format v) walks).1, walks + 1 + n)) ∧
    ((∀ f, env.caller = some f → f.file ≠ "" ∧ f.line ≠ 0 ∧ shortName f.fname ≠ "") →
      NewRequest env logger level format v walks
        = some ((genRuntime env (initialRequest level format v) walks).1, walks + 1)) := by
  obtain ⟨n, hn, hset⟩ := evalRuntimeArgs_first env logger.recordArgs
    (initialRequest level format v) walks (initialRequest_unset _ _ _) hcfg
  refine ⟨⟨n, hn⟩, fun hgood => ?_⟩
  have := hset (genRuntime_settled env _ walks hgood)
  subst this
  exact hn

/-- Witness for C4: with lineno, funcname, filename and lineno again
configured among other names, one walk fills all four fields. -/
theorem NewRequest_single_walk_witness :
    (∃ name ∈ (exampleLogger 0 exampleInstant
        ["time", "lineno", "funcname", "filename", "lineno"]).recordArgs, name ∈ stackNames) ∧
    NewRequest
        (exampleEnv exampleInstant
          (some ⟨"/src/app/main.go", 42, "github.com/x/app.(*Server).Run"⟩))
        (exampleLogger 0 exampleInstant ["time", "lineno", "funcname", "filename", "lineno"])
        20 "%s" [] 0
      = some (⟨20, "%s", "/src/app/main.go", "main.go", 42, "Run", []⟩, 1) :=
  ⟨⟨"lineno", by decide, by decide⟩,
   ((NewRequest_single_walk
      (exampleEnv exampleInstant
        (some ⟨"/src/app/main.go", 42, "github.com/x/app.(*Server).Run"⟩))
      (exampleLogger 0 exampleInstant ["time", "lineno", "funcname", "filename", "lineno"])
      20 "%s" [] 0 ⟨"lineno", by decide, by decide⟩).2
      (fun f hf => by
        have : f = ⟨"/src/app/main.go", 42, "github.com/x/app.(*Server).Run"⟩ :=
          (Option.some.inj hf).symm
        subst this
        exact ⟨by decide, by decide, by decide⟩)).trans (by decide)⟩

/-- Counterexample to C4 as stated: when the walk succeeds for a frame whose
function name is empty, the stored short name is empty, which is what
`setFuncname` takes for unset: with funcname configured twice the stack is
walked twice. -/
theorem NewRequest_walks_twice :
    NewRequest (exampleEnv exampleInstant (some ⟨"/src/app/main.go", 42, ""⟩))
        (exampleLogger 0 exampleInstant ["funcname", "funcname"]) 20 "%s" [] 0
      = some (⟨20, "%s", "/src/app/main.go", "main.go", 42, "", []⟩, 2) := by
  decide

/-- C5 (amended): provided a successful walk reports a positive line number,
`NewRequest` returns a request whose line number is 0 exactly when no
stack-derived field is configured, and negative exactly when one is configured
and the walk failed; hence a requested line number is never 0. -/
theorem NewRequest_lineno_zero_iff (env : Env) (logger : Logger) (level : Level)
    (format : String) (v : List Value) (walks : Nat)
    (hline : ∀ f, env.caller = some f → 0 < f.line) :
    ∃ r w, NewRequest env logger level format v walks = some (r, w) ∧
      (r.lineno = 0 ↔ ∀ name ∈ logger.recordArgs, name ∉ stackNames) ∧
      (r.lineno < 0 ↔ (∃ name ∈ logger.recordArgs, name ∈ stackNames) ∧ env.caller = none) ∧
      ((∃ name ∈ logger.recordArgs, name ∈ stackNames) → r.lineno ≠ 0) := by
  by_cases hcfg : ∃ name ∈ logger.recordArgs, name ∈ stackNames
  · obtain ⟨n, hn, _⟩ := evalRuntimeArgs_first env logger.recordArgs
      (initialRequest level format v) walks (initialRequest_unset _ _ _) hcfg
    have hne : (genRuntime env (initialRequest level format v) walks).1.lineno ≠ 0 := by
      unfold genRuntime
      cases hc : env.caller with
      | none => simp
      | some f => have := hline f hc; simp only []; omega
    refine ⟨_, _, hn, ?_, ?_, fun _ => hne⟩
    · constructor
      · intro h; exact absurd h hne
      · intro h
        obtain ⟨name, hm, hs⟩ := hcfg
        exact absurd hs (h name hm)
    · unfold genRuntime
      cases hc : env.caller with
      | none => simp [hcfg]
      | some f =>
        have := hline f hc
        simp only []
        constructor
        · intro h; omega
        · intro h; simp at h
  · have hno : ∀ name ∈ logger.recordArgs, name ∉ stackNames := by
      intro name hm hs; exact hcfg ⟨name, hm, hs⟩
    refine ⟨_, _, evalRuntimeArgs_nostack env logger.recordArgs _ walks hno, ?_, ?_,
      fun hc => absurd hc hcfg⟩
    · simp only [initialRequest, true_iff]
      exact hno
    · simp [initialRequest, hcfg]

/-- Witness for C5: an environment whose walk succeeds at line 42. -/
theorem NewRequest_lineno_zero_iff_witness :
    (∀ f, (exampleEnv exampleInstant (some ⟨"/src/app/main.go", 42, "main.main"⟩)).caller
        = some f → 0 < f.line) ∧
    ∃ r w, NewRequest (exampleEnv exampleInstant (some ⟨"/src/app/main.go", 42, "main.main"⟩))
          (exampleLogger 0 exampleInstant ["lineno"]) 20 "%s" [] 0 = some (r, w) ∧
      (r.lineno = 0 ↔
        ∀ name ∈ (exampleLogger 0 exampleInstant ["lineno"]).recordArgs, name ∉ stackNames) ∧
      (r.lineno < 0 ↔
        (∃ name ∈ (exampleLogger 0 exampleInstant ["lineno"]).recordArgs, name ∈ stackNames) ∧
        (exampleEnv exampleInstant (some ⟨"/src/app/main.go", 42, "main.main"⟩)).caller
          = none) ∧
      ((∃ name ∈ (exampleLogger 0 exampleInstant ["lineno"]).recordArgs, name ∈ stackNames) →
        r.lineno ≠ 0) :=
  ⟨fun f hf => by
      have : f = ⟨"/src/app/main.go", 42, "main.main"⟩ := (Option.some.inj hf).symm
      subst this
      decide,
   NewRequest_lineno_zero_iff
     (exampleEnv exampleInstant (some ⟨"/src/app/main.go", 42, "main.main"⟩))
     (exampleLogger 0 exampleInstant ["lineno"]) 20 "%s" [] 0
     (fun f hf => by
        have : f = ⟨"/src/app/main.go", 42, "main.main"⟩ := (Option.some.inj hf).symm
        subst this
        decide)⟩

/-- Counterexample to C5 as stated: when the walk succeeds and reports line 0,
the request has line number 0 although lineno is configured. -/
theorem NewRequest_requested_lineno_zero :
    NewRequest (exampleEnv exampleInstant (some ⟨"/src/app/main.go", 0, "main.main"⟩))
        (exampleLogger 0 exampleInstant ["lineno"]) 20 "%s" [] 0
      = some (⟨20, "%s", "/src/app/main.go", "main.go", 0, "main", []⟩, 1) := by
  decide

/-- C6: when the stack walk fails, `genRuntime` sets pathname, filename and
funcname to `???` and lineno to -1 on every request it runs on; `NewRequest`
returns normally for every logger, and when a stack-derived field is configured
the pathname, filename and funcname resolvers of a record built from the
returned request return `???` and the lineno resolver returns -1. -/
theorem failed_walk_sets_sentinels (env : Env) (hfail : env.caller = none) :
    (∀ (r : request) (w : Nat),
      (genRuntime env r w).1.pathname = "???" ∧ (genRuntime env r w).1.filename = "???" ∧
      (genRuntime env r w).1.funcname = "???" ∧ (genRuntime env r w).1.lineno = -1) ∧
    (∀ (logger : Logger) (level : Level) (format : String) (v : List Value) (walks : Nat),
      ∃ r w, NewRequest env logger level format v walks = some (r, w) ∧
        ((∃ name ∈ logger.recordArgs, name ∈ stackNames) →
          ∀ msg : String,
            logger.pathname (NewRecord r msg) = Value.str "???" ∧
            logger.filename (NewRecord r msg) = Value.str "???" ∧
            logger.funcname (NewRecord r msg) = Value.str "???" ∧
            logger.lineno (NewRecord r msg) = Value.int (-1))) := by
  have hgen : ∀ (r : request) (w : Nat),
      (genRuntime env r w).1.pathname = "???" ∧ (genRuntime env r w).1.filename = "???" ∧
      (genRuntime env r w).1.funcname = "???" ∧ (genRuntime env r w).1.lineno = -1 := by
    intro r w
    unfold genRuntime
    rw [hfail]
    exact ⟨rfl, rfl, rfl, rfl⟩
  refine ⟨hgen, ?_⟩
  intro logger level format v walks
  by_cases hcfg : ∃ name ∈ logger.recordArgs, name ∈ stackNames
  · obtain ⟨n, hn, _⟩ := evalRuntimeArgs_first env logger.recordArgs
      (initialRequest level format v) walks (initialRequest_unset _ _ _) hcfg
    refine ⟨_, _, hn, fun _ msg => ?_⟩
    obtain ⟨h1, h2, h3, h4⟩ := hgen (initialRequest level format v) walks
    simp only [Logger.pathname, Logger.filename, Logger.funcname, Logger.lineno, NewRecord,
      h1, h2, h3, h4, and_self]
  · obtain ⟨r, w, h⟩ := NewRequest_returns env logger level format v walks
    exact ⟨r, w, h, fun hc => absurd hc hcfg⟩

/-- Witness for C6: on a failing walk `genRuntime` writes the sentinels into
the example request. -/
theorem failed_walk_sets_sentinels_witness :
    (exampleEnv exampleInstant none).caller = none ∧
    (genRuntime (exampleEnv exampleInstant none) exampleRequest 0).1.pathname = "???" ∧
    (genRuntime (exampleEnv exampleInstant none) exampleRequest 0).1.filename = "???" ∧
    (genRuntime (exampleEnv exampleInstant none) exampleRequest 0).1.funcname = "???" ∧
    (genRuntime (exampleEnv exampleInstant none) exampleRequest 0).1.lineno = -1 :=
  ⟨rfl, (failed_walk_sets_sentinels (exampleEnv exampleInstant none) rfl).1 exampleRequest 0⟩

/-- C7: for every logger whose `recordArgs` contains none of filename,
pathname, lineno, funcname, and every level, format and argument list,
`NewRequest` makes no stack walk and returns the request with empty pathname,
filename and funcname, lineno 0, and the level, format and arguments passed in. -/
theorem NewRequest_no_stack_field_no_walk (env : Env) (logger : Logger) (level : Level)
    (format : String) (v : List Value) (walks : Nat)
    (hcfg : ∀ name ∈ logger.recordArgs, name ∉ stackNames) :
    NewRequest env logger level format v walks
      = some ({ level := level, format := format, pathname := "", filename := "",
                lineno := 0, funcname := "", v := v }, walks) :=
  evalRuntimeArgs_nostack env logger.recordArgs _ walks hcfg

/-- Witness for C7: a field list with known names, an unknown name and a
repeat, none of them stack-derived. -/
theorem NewRequest_no_stack_field_no_walk_witness :
    (∀ name ∈ (exampleLogger 0 exampleInstant
        ["seqid", "levelname", "bogus", "message", "seqid"]).recordArgs, name ∉ stackNames) ∧
    NewRequest (exampleEnv exampleInstant (some ⟨"/src/app/main.go", 42, "main.main"⟩))
        (exampleLogger 0 exampleInstant ["seqid", "levelname", "bogus", "message", "seqid"])
        20 "%s" [Value.str "a"] 5
      = some ({ level := 20, format := "%s", pathname := "", filename := "",
                lineno := 0, funcname := "", v := [Value.str "a"] }, 5) :=
  ⟨by decide,
   NewRequest_no_stack_field_no_walk
     (exampleEnv exampleInstant (some ⟨"/src/app/main.go", 42, "main.main"⟩))
     (exampleLogger 0 exampleInstant ["seqid", "levelname", "bogus", "message", "seqid"])
     20 "%s" [Value.str "a"] 5 (by decide)⟩

/-- C10: for every list of field names in `recordArgs`, `NewRequest` returns
without calling a nil setter; the names for which `runtimeFields` yields true
are exactly the keys of `setRequestFields` (filename, pathname, lineno,
funcname), and `runtimeFields` and `fields` have the same 16 distinct keys. -/
theorem NewRequest_never_calls_nil_setter :
    (∀ (env : Env) (logger : Logger) (level : Level) (format : String) (v : List Value)
        (walks : Nat), ∃ r w, NewRequest env logger level format v walks = some (r, w)) ∧
    (∀ name : String, runtimeFieldsAt name = true ↔ (setRequestFieldsAt name).isSome = true) ∧
    (∀ name : String, runtimeFieldsAt name = true ↔ name ∈ setRequestFields.map Prod.fst) ∧
    setRequestFields.map Prod.fst = ["filename", "pathname", "lineno", "funcname"] ∧
    runtimeFields.map Prod.fst = fields.map Prod.fst ∧
    (runtimeFields.map Prod.fst).length = 16 ∧
    (runtimeFields.map Prod.fst).Nodup := by
  refine ⟨NewRequest_returns, ?_, ?_, rfl, rfl, rfl, by decide⟩
  · intro name
    rw [runtimeFieldsAt_iff, setRequestFieldsAt_isSome_iff]
  · intro name
    rw [runtimeFieldsAt_iff]
    rfl

/-! ### The reopen loop -/

theorem reopenLoop_signal_ok (reopen : Nat → Option String) (es : List SigEvent) (n : Nat)
    (h : reopen n = none) :
    ReopenOnSignalLoop reopen (SigEvent.signal :: es) n
      = ReopenOnSignalLoop reopen es (n + 1) := by
  simp [ReopenOnSignalLoop, reopenLoopBody, h]

theorem reopenLoop_signal_err (reopen : Nat → Option String) (es : List SigEvent) (n : Nat)
    (err : String) (h : reopen n = some err) :
    ReopenOnSignalLoop reopen (SigEvent.signal :: es) n
      = (LoopState.Terminated err, n + 1) := by
  simp [ReopenOnSignalLoop, reopenLoopBody, h]

theorem reopenLoop_closed (reopen : Nat → Option String) (es : List SigEvent) (n : Nat) :
    ReopenOnSignalLoop reopen (SigEvent.closed :: es) n
      = (LoopState.Terminated "Channel closed unexpectedly", n) := by
  simp [ReopenOnSignalLoop, reopenLoopBody]

theorem reopenLoop_signals (reopen : Nat → Option String) (k : Nat) :
    ∀ (n : Nat) (rest : List SigEvent), (∀ i, i < k → reopen (n + i) = none) →
      ReopenOnSignalLoop reopen (List.replicate k SigEvent.signal ++ rest) n
        = ReopenOnSignalLoop reopen rest (n + k) := by
  induction k with
  | zero => intro n rest _; rfl
  | succ k ih =>
    intro n rest h
    rw [List.replicate_succ, List.cons_append, reopenLoop_signal_ok reopen _ n (h 0 (by omega))]
    rw [ih (n + 1) rest (fun i hi => by
      have := h (i + 1) (by omega)
      rwa [show n + 1 + i = n + (i + 1) by omega])]
    congr 1
    omega

/-- Every finite event stream is a run of signals whose reopens all succeed,
followed by nothing, by a channel-closed event, or by a signal whose reopen
fails. -/
theorem sigEvents_shape (reopen : Nat → Option String) (evs : List SigEvent) :
    ∀ n : Nat, ∃ k, (∀ i, i < k → reopen (n + i) = none) ∧
      (evs = List.replicate k SigEvent.signal ∨
       (∃ rest, evs = List.replicate k SigEvent.signal ++ SigEvent.closed :: rest) ∨
       (∃ err rest, reopen (n + k) = some err ∧
          evs = List.replicate k SigEvent.signal ++ SigEvent.signal :: rest)) := by
  induction evs with
  | nil => intro n; exact ⟨0, fun i hi => absurd hi (by omega), Or.inl rfl⟩
  | cons e es ih =>
    intro n
    cases e with
    | closed =>
      exact ⟨0, fun i hi => absurd hi (by omega), Or.inr (Or.inl ⟨es, rfl⟩)⟩
    | signal =>
      cases hr : reopen n with
      | some err =>
        exact ⟨0, fun i hi => absurd hi (by omega), Or.inr (Or.inr ⟨err, es, hr, rfl⟩)⟩
      | none =>
        obtain ⟨k, hk, hshape⟩ := ih (n + 1)
        refine ⟨k + 1, ?_, ?_⟩
        · intro i hi
          cases i with
          | zero => exact hr
          | succ j =>
            have := hk j (by omega)
            rwa [show n + 1 + j = n + (j + 1) by omega] at this
        · rcases hshape with h | ⟨rest, h⟩ | ⟨err, rest, herr, h⟩
          · exact Or.inl (by rw [h, List.replicate_succ])
          · exact Or.inr (Or.inl ⟨rest, by rw [h, List.replicate_succ, List.cons_append]⟩)
          · refine Or.inr (Or.inr ⟨err, rest, ?_, by rw [h, List.replicate_succ, List.cons_append]⟩)
            rwa [show n + (k + 1) = n + 1 + k by omega]

/-- C9: the loop, started listening with `n` reopens made so far.  After k
signals whose reopens all succeed it is still listening and has called `Reopen`
k more times, once per signal.  If the next event is channel-closed it
terminates with the panic `Channel closed unexpectedly` without a further
reopen; if the next event is a signal whose reopen fails it terminates with that
error after this one further reopen.  Whatever events follow the terminating
one, `Reopen` is not called again.  Every finite event stream has one of these
three shapes. -/
theorem ReopenOnSignalLoop_behaviour (reopen : Nat → Option String) (n : Nat) :
    (∀ k, (∀ i, i < k → reopen (n + i) = none) →
      ReopenOnSignalLoop reopen (List.replicate k SigEvent.signal) n
          = (LoopState.Listening, n + k) ∧
      (∀ rest : List SigEvent,
        ReopenOnSignalLoop reopen
            (List.replicate k SigEvent.signal ++ SigEvent.closed :: rest) n
          = (LoopState.Terminated "Channel closed unexpectedly", n + k)) ∧
      (∀ (err : String) (rest : List SigEvent), reopen (n + k) = some err →
        ReopenOnSignalLoop reopen
            (List.replicate k SigEvent.signal ++ SigEvent.signal :: rest) n
          = (LoopState.Terminated err, n + k + 1))) ∧
    (∀ evs : List SigEvent, ∃ k, (∀ i, i < k → reopen (n + i) = none) ∧
      (evs = List.replicate k SigEvent.signal ∨
       (∃ rest, evs = List.replicate k SigEvent.signal ++ SigEvent.closed :: rest) ∨
       (∃ err rest, reopen (n + k) = some err ∧
          evs = List.replicate k SigEvent.signal ++ SigEvent.signal :: rest))) := by
  refine ⟨fun k hok => ⟨?_, ?_, ?_⟩, fun evs => sigEvents_shape reopen evs n⟩
  · have := reopenLoop_signals reopen k n [] hok
    rw [List.append_nil] at this
    rw [this]; rfl
  · intro rest
    rw [reopenLoop_signals reopen k n _ hok, reopenLoop_closed]
  · intro err rest herr
    rw [reopenLoop_signals reopen k n _ hok, reopenLoop_signal_err reopen rest _ err herr]

/-- Witness for C9: two signals are reopened successfully, the reopen for the
third signal fails, and the signal and the close that follow are not acted on:
three reopens in all. -/
theorem ReopenOnSignalLoop_behaviour_witness :
    (∀ i, i < 2 → exampleReopen (0 + i) = none) ∧
    exampleReopen (0 + 2) = some "open: permission denied" ∧
    ReopenOnSignalLoop exampleReopen
        (List.replicate 2 SigEvent.signal ++
          SigEvent.signal :: [SigEvent.signal, SigEvent.closed]) 0
      = (LoopState.Terminated "open: permission denied", 0 + 2 + 1) :=
  ⟨by decide, rfl,
   (((ReopenOnSignalLoop_behaviour exampleReopen 0).1 2 (by decide)).2.2)
     "open: permission denied" [SigEvent.signal, SigEvent.closed] rfl⟩

end Logging
